import Mathlib

/-!
Verification of the nl80211 netlink attribute codec (`src/attr.rs`) of the
`wl-nl80211` crate.  Attributes are shallowly embedded: byte buffers are
`List Nat` (each entry a byte value), machine integers are `Nat` with
explicit `% 2 ^ w` where overflow matters, and fallible parsing returns
`Except String`.  The TLV framing primitives of the external
`netlink_packet_utils` crate and the repository modules that are not part
of `src/` (`channel.rs`, `iface.rs`, `stats.rs`) are modelled from the
specification, as marked on each definition.
-/

namespace WlNl80211

/-- Serialize a 16-bit integer in native (little-endian host) byte order,
as `byteorder::NativeEndian::write_u16` does; the `% 256` projections model
the machine-width truncation. -/
def writeU16 (n : Nat) : List Nat :=
  [n % 256, n / 256 % 256]

/-- Serialize a 32-bit integer in native byte order
(`NativeEndian::write_u32`). -/
def writeU32 (n : Nat) : List Nat :=
  [n % 256, n / 256 % 256, n / 65536 % 256, n / 16777216 % 256]

/-- Serialize a 64-bit integer in native byte order
(`NativeEndian::write_u64`). -/
def writeU64 (n : Nat) : List Nat :=
  [n % 256, n / 256 % 256, n / 65536 % 256, n / 16777216 % 256,
   n / 4294967296 % 256, n / 1099511627776 % 256,
   n / 281474976710656 % 256, n / 72057594037927936 % 256]

/-- Read a 16-bit native-endian integer from the first two bytes. -/
def readU16 (l : List Nat) : Nat :=
  l.getD 0 0 + 256 * l.getD 1 0

/-- Read a 32-bit native-endian integer from the first four bytes. -/
def readU32 (l : List Nat) : Nat :=
  l.getD 0 0 + 256 * l.getD 1 0 + 65536 * l.getD 2 0 + 16777216 * l.getD 3 0

/-- Read a 64-bit native-endian integer from the first eight bytes. -/
def readU64 (l : List Nat) : Nat :=
  l.getD 0 0 + 256 * l.getD 1 0 + 65536 * l.getD 2 0 + 16777216 * l.getD 3 0
    + 4294967296 * l.getD 4 0 + 1099511627776 * l.getD 5 0
    + 281474976710656 * l.getD 6 0 + 72057594037927936 * l.getD 7 0

/-- Round a byte count up to the next multiple of 4, the alignment unit of
the netlink attribute wire format. -/
def nlaAlign (n : Nat) : Nat :=
  (n + 3) / 4 * 4

/-- Modelled from the spec: the emit side of the external TLV primitive
(`netlink_packet_utils`, spec section 4.1): a record is a 2-byte length
field counting header plus unpadded value, a 2-byte type code, the value
bytes, and zero padding up to the next multiple of 4. -/
def emitNla (kind : Nat) (value : List Nat) : List Nat :=
  writeU16 (4 + value.length) ++ writeU16 kind ++ value
    ++ List.replicate (nlaAlign value.length - value.length) 0

/-- Concatenation of framed records, as `Emitable for &[T: Nla]` emits a
slice of attributes one framed record after another. -/
def emitNlaSeq : List (Nat × List Nat) → List Nat
  | [] => []
  | r :: rs => emitNla r.1 r.2 ++ emitNlaSeq rs

/-- Byte length of a framed record whose value length is `n`:
4-byte header plus padded value. -/
def nlaBufferLen (n : Nat) : Nat :=
  4 + nlaAlign n

/-- Total byte length of a sequence of framed records with the given value
lengths, as `Emitable::buffer_len` computes it for a slice of attributes. -/
def nlasBufferLen (valueLens : List Nat) : Nat :=
  valueLens.foldr (fun n acc => nlaBufferLen n + acc) 0

/-- Modelled from the spec: the decode side of the external TLV primitive
(`NlasIterator`, spec section 4.1), fuel-indexed so that the definition is
structurally recursive; `splitNlas` instantiates the fuel with the buffer
length, which lemma `splitNlasF_fuel_irrel` shows is always enough.  Each
step reads the length and type fields, fails if the declared length is
shorter than a header or exceeds the remaining bytes, extracts the value,
and skips the 4-byte-aligned span of the record. -/
def splitNlasF : Nat → List Nat → Except String (List (Nat × List Nat))
  | _, [] => .ok []
  | 0, _ :: _ => .error "nla iterator: out of fuel"
  | fuel + 1, b :: bs =>
    let bytes := b :: bs
    if bytes.length < 4 then .error "truncated NLA header"
    else
      let len := readU16 bytes
      if len < 4 then .error "invalid NLA length field"
      else if bytes.length < len then .error "NLA length exceeds buffer"
      else
        match splitNlasF fuel (bytes.drop (nlaAlign len)) with
        | .ok rest =>
          .ok ((readU16 (bytes.drop 2), (bytes.drop 4).take (len - 4)) :: rest)
        | .error e => .error e

/-- Split a byte buffer into its sequence of raw `(kind, value)` records. -/
def splitNlas (bytes : List Nat) : Except String (List (Nat × List Nat)) :=
  splitNlasF bytes.length bytes

/-- Is an `Except` result a success? -/
def exceptOk {ε α : Type} : Except ε α → Bool
  | .ok _ => true
  | .error _ => false

theorem readU32_writeU32 {d : Nat} (h : d < 4294967296) (rest : List Nat) :
    readU32 (writeU32 d ++ rest) = d := by
  simp only [writeU32, readU32, List.cons_append, List.getD_cons_zero, List.getD_cons_succ]
  omega

theorem readU64_writeU64 {d : Nat} (h : d < 18446744073709551616) (rest : List Nat) :
    readU64 (writeU64 d ++ rest) = d := by
  simp only [writeU64, readU64, List.cons_append, List.getD_cons_zero, List.getD_cons_succ]
  omega

theorem readU16_writeU16 {d : Nat} (h : d < 65536) (rest : List Nat) :
    readU16 (writeU16 d ++ rest) = d := by
  simp only [writeU16, readU16, List.cons_append, List.getD_cons_zero, List.getD_cons_succ]
  omega

theorem nlaAlign_add_four (n : Nat) : nlaAlign (4 + n) = 4 + nlaAlign n := by
  simp only [nlaAlign]
  omega

theorem nlaAlign_ge (n : Nat) : n ≤ nlaAlign n := by
  simp only [nlaAlign]
  omega

theorem emitNla_length (kind : Nat) (value : List Nat) :
    (emitNla kind value).length = nlaBufferLen value.length := by
  simp only [emitNla, nlaBufferLen, List.length_append, List.length_replicate,
    writeU16, List.length_cons, List.length_nil]
  have := nlaAlign_ge value.length
  omega

theorem nlaAlign_ge_four {n : Nat} (h : 4 ≤ n) : 4 ≤ nlaAlign n := by
  simp only [nlaAlign]
  omega

theorem splitNlasF_nil (fuel : Nat) : splitNlasF fuel [] = .ok [] := by
  cases fuel <;> rfl

theorem splitNlasF_fuel_irrel :
    ∀ (f g : Nat) (bytes : List Nat), bytes.length ≤ f → bytes.length ≤ g →
      splitNlasF f bytes = splitNlasF g bytes := by
  intro f
  induction f with
  | zero =>
    intro g bytes hf _
    have hb : bytes = [] := by
      cases bytes with
      | nil => rfl
      | cons b bs => simp at hf
    subst hb
    simp [splitNlasF_nil]
  | succ f ih =>
    intro g bytes hf hg
    cases bytes with
    | nil => simp [splitNlasF_nil]
    | cons b bs =>
      obtain ⟨g', rfl⟩ : ∃ g', g = g' + 1 := by
        refine ⟨g - 1, ?_⟩
        simp only [List.length_cons] at hg
        omega
      simp only [splitNlasF]
      by_cases hl4 : readU16 (b :: bs) < 4
      · simp [hl4]
      · have halign : 4 ≤ nlaAlign (readU16 (b :: bs)) :=
          nlaAlign_ge_four (by omega)
        rw [ih g' (List.drop (nlaAlign (readU16 (b :: bs))) (b :: bs))
          (by simp only [List.length_cons] at hf; simp only [List.length_drop,
            List.length_cons]; omega)
          (by simp only [List.length_cons] at hg; simp only [List.length_drop,
            List.length_cons]; omega)]

theorem splitNlasF_of_length_le {f : Nat} {bytes : List Nat} (h : bytes.length ≤ f) :
    splitNlasF f bytes = splitNlas bytes :=
  splitNlasF_fuel_irrel f bytes.length bytes h le_rfl

theorem drop_add_four_cons (n a b c d : Nat) (l : List Nat) :
    List.drop (n + 4) (a :: b :: c :: d :: l) = List.drop n l := by
  rw [show n + 4 = n + 3 + 1 from rfl, List.drop_succ_cons,
    show n + 3 = n + 2 + 1 from rfl, List.drop_succ_cons,
    show n + 2 = n + 1 + 1 from rfl, List.drop_succ_cons, List.drop_succ_cons]

theorem splitNlas_cons (k : Nat) (v rest : List Nat)
    (hk : k < 65536) (hv : 4 + v.length < 65536) :
    splitNlas (emitNla k v ++ rest) =
      match splitNlas rest with
      | .ok rs => .ok ((k, v) :: rs)
      | .error e => .error e := by
  have hvp : v.length ≤ nlaAlign v.length := nlaAlign_ge v.length
  set pad : List Nat := List.replicate (nlaAlign v.length - v.length) 0 with hpad
  have hpadlen : pad.length = nlaAlign v.length - v.length := by
    simp [hpad]
  have hXform : emitNla k v ++ rest
      = (4 + v.length) % 256 :: (4 + v.length) / 256 % 256 :: k % 256 :: k / 256 % 256
          :: (v ++ (pad ++ rest)) := by
    simp [emitNla, writeU16, hpad, List.append_assoc]
  rw [splitNlas, hXform]
  simp only [splitNlasF]
  have hread : readU16 ((4 + v.length) % 256 :: (4 + v.length) / 256 % 256 :: k % 256
      :: k / 256 % 256 :: (v ++ (pad ++ rest))) = 4 + v.length := by
    simp only [readU16, List.getD_cons_zero, List.getD_cons_succ]
    omega
  rw [hread]
  rw [if_neg (by simp only [List.length_cons]; omega),
    if_neg (by omega),
    if_neg (by simp only [List.length_cons, List.length_append]; omega)]
  have hkind : readU16 (List.drop 2 ((4 + v.length) % 256 :: (4 + v.length) / 256 % 256
      :: k % 256 :: k / 256 % 256 :: (v ++ (pad ++ rest)))) = k := by
    show readU16 (k % 256 :: k / 256 % 256 :: (v ++ (pad ++ rest))) = k
    simp only [readU16, List.getD_cons_zero, List.getD_cons_succ]
    omega
  rw [hkind]
  have hvalue : List.take (4 + v.length - 4) (List.drop 4 ((4 + v.length) % 256
      :: (4 + v.length) / 256 % 256 :: k % 256 :: k / 256 % 256
      :: (v ++ (pad ++ rest)))) = v := by
    rw [Nat.add_sub_cancel_left]
    show List.take v.length (v ++ (pad ++ rest)) = v
    rw [List.take_left]
  rw [hvalue]
  have hskipn : nlaAlign (4 + v.length) = (v ++ pad).length + 4 := by
    rw [nlaAlign_add_four]
    simp only [List.length_append, hpadlen]
    omega
  rw [hskipn, ← List.append_assoc, drop_add_four_cons, List.drop_left]
  rw [splitNlasF_of_length_le
    (by simp only [List.length_cons, List.length_append]; omega)]

theorem splitNlas_emitNlaSeq (rs : List (Nat × List Nat))
    (h : ∀ r ∈ rs, r.1 < 65536 ∧ 4 + r.2.length < 65536) :
    splitNlas (emitNlaSeq rs) = .ok rs := by
  induction rs with
  | nil => rfl
  | cons r rs ih =>
    rw [emitNlaSeq, splitNlas_cons r.1 r.2 (emitNlaSeq rs)
      (h r (by simp)).1 (h r (by simp)).2]
    rw [ih (fun x hx => h x (by simp [hx]))]

theorem emitNlaSeq_length (rs : List (Nat × List Nat)) :
    (emitNlaSeq rs).length = nlasBufferLen (rs.map (fun r => r.2.length)) := by
  induction rs with
  | nil => rfl
  | cons r rs ih =>
    simp only [emitNlaSeq, List.length_append, ih, List.map_cons, nlasBufferLen,
      List.foldr_cons, emitNla_length]

/-! ### Valid text

Rust strings are valid UTF-8 by construction; the spec's "valid text" check
on decode is UTF-8 well-formedness of the bytes before the terminator.  The
checker below consumes one byte per step: a pending list of admissible
continuation-byte ranges tracks how a lead byte constrains its successors
(including the overlong, surrogate and out-of-range exclusions). -/

/-- Admissible ranges for the continuation bytes introduced by a lead byte,
or `none` if the byte cannot start a UTF-8 sequence. -/
def utf8LeadRanges (b : Nat) : Option (List (Nat × Nat)) :=
  if b ≤ 0x7F then some []
  else if 0xC2 ≤ b ∧ b ≤ 0xDF then some [(0x80, 0xBF)]
  else if b = 0xE0 then some [(0xA0, 0xBF), (0x80, 0xBF)]
  else if (0xE1 ≤ b ∧ b ≤ 0xEC) ∨ b = 0xEE ∨ b = 0xEF then
    some [(0x80, 0xBF), (0x80, 0xBF)]
  else if b = 0xED then some [(0x80, 0x9F), (0x80, 0xBF)]
  else if b = 0xF0 then some [(0x90, 0xBF), (0x80, 0xBF), (0x80, 0xBF)]
  else if 0xF1 ≤ b ∧ b ≤ 0xF3 then
    some [(0x80, 0xBF), (0x80, 0xBF), (0x80, 0xBF)]
  else if b = 0xF4 then some [(0x80, 0x8F), (0x80, 0xBF), (0x80, 0xBF)]
  else none

/-- UTF-8 well-formedness relative to a pending list of continuation-byte
ranges still owed by the previous lead byte. -/
def utf8ValidFrom : List (Nat × Nat) → List Nat → Bool
  | [], [] => true
  | _ :: _, [] => false
  | [], b :: rest =>
    match utf8LeadRanges b with
    | some pend => utf8ValidFrom pend rest
    | none => false
  | (lo, hi) :: pend, b :: rest =>
    decide (lo ≤ b) && decide (b ≤ hi) && utf8ValidFrom pend rest

/-- A byte sequence is valid text when it is well-formed UTF-8. -/
def utf8Valid (l : List Nat) : Bool :=
  utf8ValidFrom [] l

/-! ### Scalar parsers of `netlink_packet_utils::parsers`

These helpers are external library code; they are modelled from the spec's
contract for fixed-width and string attributes (section 4.3): a fixed-width
parse fails if the value is shorter than the required width and ignores any
excess bytes beyond it; a string parse requires at least the trailing
terminator byte and valid text in front of it. -/

/-- Modelled from the spec: `netlink_packet_utils::parsers::parse_u8`. -/
def parse_u8 (payload : List Nat) : Except String Nat :=
  if payload.length < 1 then .error "invalid u8"
  else .ok (payload.getD 0 0)

/-- Modelled from the spec: `netlink_packet_utils::parsers::parse_u32`. -/
def parse_u32 (payload : List Nat) : Except String Nat :=
  if payload.length < 4 then .error "invalid u32"
  else .ok (readU32 payload)

/-- Modelled from the spec: `netlink_packet_utils::parsers::parse_u64`. -/
def parse_u64 (payload : List Nat) : Except String Nat :=
  if payload.length < 8 then .error "invalid u64"
  else .ok (readU64 payload)

/-- Modelled from the spec: `netlink_packet_utils::parsers::parse_string`;
the value must hold at least the trailing terminator, the byte in front of
which is removed, and the remaining bytes must be valid text. -/
def parse_string (payload : List Nat) : Except String (List Nat) :=
  if payload.isEmpty then .error "zero-length string attribute"
  else if utf8Valid payload.dropLast then .ok payload.dropLast
  else .error "invalid string"

theorem parse_u32_writeU32 {d : Nat} (h : d < 4294967296) :
    parse_u32 (writeU32 d) = .ok d := by
  have hr := readU32_writeU32 h []
  rw [List.append_nil] at hr
  rw [parse_u32, if_neg (by simp [writeU32]), hr]

theorem parse_u64_writeU64 {d : Nat} (h : d < 18446744073709551616) :
    parse_u64 (writeU64 d) = .ok d := by
  have hr := readU64_writeU64 h []
  rw [List.append_nil] at hr
  rw [parse_u64, if_neg (by simp [writeU64]), hr]

theorem parse_string_append {s : List Nat} (h : utf8Valid s = true) :
    parse_string (s ++ [0]) = .ok s := by
  have hd : (s ++ [0]).dropLast = s := by
    simp
  simp [parse_string, hd, h]

deriving instance DecidableEq for Except

/-! ### Enumerated scalar sub-codecs

`crate::iface::Nl80211InterfaceType`, `crate::channel::Nl80211WiPhyChannelType`
and `crate::channel::Nl80211ChannelWidth` live in repository files that are
not part of `src/`; they are modelled from the spec (section 4.2): a closed
set of named constants plus exactly one unrecognized-value escape carrying
the raw integer, with `fromU32` total and `toU32` its exact inverse on
recognized values, over the integer domains of the kernel UAPI
(`enum nl80211_iftype`, `enum nl80211_channel_type`,
`enum nl80211_chan_width`). -/

/-- Modelled from the spec: `crate::iface::Nl80211InterfaceType`. -/
inductive Nl80211InterfaceType
  | Unspecified | Adhoc | Station | Ap | ApVlan | Wds | Monitor | MeshPoint
  | P2pClient | P2pGo | P2pDevice | Ocb | Nan
  | Other (raw : Nat)
  deriving DecidableEq

/-- Decode an interface-type code; total, with the escape for any
unrecognized integer. -/
def Nl80211InterfaceType.fromU32 : Nat → Nl80211InterfaceType
  | 0 => .Unspecified
  | 1 => .Adhoc
  | 2 => .Station
  | 3 => .Ap
  | 4 => .ApVlan
  | 5 => .Wds
  | 6 => .Monitor
  | 7 => .MeshPoint
  | 8 => .P2pClient
  | 9 => .P2pGo
  | 10 => .P2pDevice
  | 11 => .Ocb
  | 12 => .Nan
  | raw => .Other raw

/-- Encode an interface type back to its integer code. -/
def Nl80211InterfaceType.toU32 : Nl80211InterfaceType → Nat
  | .Unspecified => 0
  | .Adhoc => 1
  | .Station => 2
  | .Ap => 3
  | .ApVlan => 4
  | .Wds => 5
  | .Monitor => 6
  | .MeshPoint => 7
  | .P2pClient => 8
  | .P2pGo => 9
  | .P2pDevice => 10
  | .Ocb => 11
  | .Nan => 12
  | .Other raw => raw

/-- An interface-type value is canonical when its escape variant is only
used for integers no named variant covers (and the raw code fits in 32
bits, as the `u32` payload does by type). -/
def Nl80211InterfaceType.canonical : Nl80211InterfaceType → Bool
  | .Other raw => decide (13 ≤ raw) && decide (raw < 4294967296)
  | _ => true

theorem Nl80211InterfaceType.iface_fromU32_escape {raw : Nat} (h : 13 ≤ raw) :
    Nl80211InterfaceType.fromU32 raw = .Other raw := by
  obtain ⟨m, rfl⟩ : ∃ m, raw = m + 13 := ⟨raw - 13, by omega⟩
  rfl

theorem Nl80211InterfaceType.iface_from_to {t : Nl80211InterfaceType}
    (h : t.canonical = true) : Nl80211InterfaceType.fromU32 t.toU32 = t := by
  cases t with
  | Other raw =>
    simp only [canonical, Bool.and_eq_true, decide_eq_true_eq] at h
    exact Nl80211InterfaceType.iface_fromU32_escape h.1
  | _ => rfl

theorem Nl80211InterfaceType.iface_toU32_lt {t : Nl80211InterfaceType}
    (h : t.canonical = true) : t.toU32 < 4294967296 := by
  cases t with
  | Other raw =>
    simp only [canonical, Bool.and_eq_true, decide_eq_true_eq] at h
    exact h.2
  | _ => simp [toU32]

/-- Modelled from the spec: `crate::channel::Nl80211WiPhyChannelType`. -/
inductive Nl80211WiPhyChannelType
  | NoHT | HT20 | HT40Minus | HT40Plus
  | Other (raw : Nat)
  deriving DecidableEq

/-- Decode a wiphy channel-type code. -/
def Nl80211WiPhyChannelType.fromU32 : Nat → Nl80211WiPhyChannelType
  | 0 => .NoHT
  | 1 => .HT20
  | 2 => .HT40Minus
  | 3 => .HT40Plus
  | raw => .Other raw

/-- Encode a wiphy channel type back to its integer code. -/
def Nl80211WiPhyChannelType.toU32 : Nl80211WiPhyChannelType → Nat
  | .NoHT => 0
  | .HT20 => 1
  | .HT40Minus => 2
  | .HT40Plus => 3
  | .Other raw => raw

/-- Canonicity of the escape variant for channel types. -/
def Nl80211WiPhyChannelType.canonical : Nl80211WiPhyChannelType → Bool
  | .Other raw => decide (4 ≤ raw) && decide (raw < 4294967296)
  | _ => true

theorem Nl80211WiPhyChannelType.chtype_fromU32_escape {raw : Nat} (h : 4 ≤ raw) :
    Nl80211WiPhyChannelType.fromU32 raw = .Other raw := by
  obtain ⟨m, rfl⟩ : ∃ m, raw = m + 4 := ⟨raw - 4, by omega⟩
  rfl

theorem Nl80211WiPhyChannelType.chtype_from_to {t : Nl80211WiPhyChannelType}
    (h : t.canonical = true) : Nl80211WiPhyChannelType.fromU32 t.toU32 = t := by
  cases t with
  | Other raw =>
    simp only [canonical, Bool.and_eq_true, decide_eq_true_eq] at h
    exact Nl80211WiPhyChannelType.chtype_fromU32_escape h.1
  | _ => rfl

theorem Nl80211WiPhyChannelType.chtype_toU32_lt {t : Nl80211WiPhyChannelType}
    (h : t.canonical = true) : t.toU32 < 4294967296 := by
  cases t with
  | Other raw =>
    simp only [canonical, Bool.and_eq_true, decide_eq_true_eq] at h
    exact h.2
  | _ => simp [toU32]

/-- Modelled from the spec: `crate::channel::Nl80211ChannelWidth`. -/
inductive Nl80211ChannelWidth
  | Width20NoHT | Width20 | Width40 | Width80 | Width80P80 | Width160
  | Width5 | Width10 | Width1 | Width2 | Width4 | Width8 | Width16 | Width320
  | Other (raw : Nat)
  deriving DecidableEq

/-- Decode a channel-width code. -/
def Nl80211ChannelWidth.fromU32 : Nat → Nl80211ChannelWidth
  | 0 => .Width20NoHT
  | 1 => .Width20
  | 2 => .Width40
  | 3 => .Width80
  | 4 => .Width80P80
  | 5 => .Width160
  | 6 => .Width5
  | 7 => .Width10
  | 8 => .Width1
  | 9 => .Width2
  | 10 => .Width4
  | 11 => .Width8
  | 12 => .Width16
  | 13 => .Width320
  | raw => .Other raw

/-- Encode a channel width back to its integer code. -/
def Nl80211ChannelWidth.toU32 : Nl80211ChannelWidth → Nat
  | .Width20NoHT => 0
  | .Width20 => 1
  | .Width40 => 2
  | .Width80 => 3
  | .Width80P80 => 4
  | .Width160 => 5
  | .Width5 => 6
  | .Width10 => 7
  | .Width1 => 8
  | .Width2 => 9
  | .Width4 => 10
  | .Width8 => 11
  | .Width16 => 12
  | .Width320 => 13
  | .Other raw => raw

/-- Canonicity of the escape variant for channel widths. -/
def Nl80211ChannelWidth.canonical : Nl80211ChannelWidth → Bool
  | .Other raw => decide (14 ≤ raw) && decide (raw < 4294967296)
  | _ => true

theorem Nl80211ChannelWidth.chwidth_fromU32_escape {raw : Nat} (h : 14 ≤ raw) :
    Nl80211ChannelWidth.fromU32 raw = .Other raw := by
  obtain ⟨m, rfl⟩ : ∃ m, raw = m + 14 := ⟨raw - 14, by omega⟩
  rfl

theorem Nl80211ChannelWidth.chwidth_from_to {t : Nl80211ChannelWidth}
    (h : t.canonical = true) : Nl80211ChannelWidth.fromU32 t.toU32 = t := by
  cases t with
  | Other raw =>
    simp only [canonical, Bool.and_eq_true, decide_eq_true_eq] at h
    exact Nl80211ChannelWidth.chwidth_fromU32_escape h.1
  | _ => rfl

theorem Nl80211ChannelWidth.chwidth_toU32_lt {t : Nl80211ChannelWidth}
    (h : t.canonical = true) : t.toU32 < 4294967296 := by
  cases t with
  | Other raw =>
    simp only [canonical, Bool.and_eq_true, decide_eq_true_eq] at h
    exact h.2
  | _ => simp [toU32]

/-! ### Transmit-queue statistics composite

`crate::stats::Nl80211TransmitQueueStat` lives in a repository file that is
not part of `src/`; it is modelled from the spec (sections 3 and 4.5): a
nested TLV composite whose sub-records are 32-bit counters, one per code of
the kernel UAPI `enum nl80211_txq_stats` (codes 1 through 11), with the
usual opaque fallback for unrecognized sub-kinds. -/

/-- Modelled from the spec: `crate::stats::Nl80211TransmitQueueStat`. -/
inductive Nl80211TransmitQueueStat
  | BacklogBytes (d : Nat)
  | BacklogPackets (d : Nat)
  | Flows (d : Nat)
  | Drops (d : Nat)
  | EcnMarks (d : Nat)
  | Overlimit (d : Nat)
  | Overmemory (d : Nat)
  | Collisions (d : Nat)
  | TxBytes (d : Nat)
  | TxPackets (d : Nat)
  | MaxFlows (d : Nat)
  | Other (kind : Nat) (value : List Nat)
  deriving DecidableEq

namespace Nl80211TransmitQueueStat

/-- Wire-type code of a statistics sub-record. -/
def kind : Nl80211TransmitQueueStat → Nat
  | .BacklogBytes _ => 1
  | .BacklogPackets _ => 2
  | .Flows _ => 3
  | .Drops _ => 4
  | .EcnMarks _ => 5
  | .Overlimit _ => 6
  | .Overmemory _ => 7
  | .Collisions _ => 8
  | .TxBytes _ => 9
  | .TxPackets _ => 10
  | .MaxFlows _ => 11
  | .Other k _ => k

/-- Value length of a statistics sub-record. -/
def value_len : Nl80211TransmitQueueStat → Nat
  | .Other _ v => v.length
  | _ => 4

/-- Value bytes of a statistics sub-record. -/
def emit_value : Nl80211TransmitQueueStat → List Nat
  | .BacklogBytes d | .BacklogPackets d | .Flows d | .Drops d | .EcnMarks d
  | .Overlimit d | .Overmemory d | .Collisions d | .TxBytes d | .TxPackets d
  | .MaxFlows d => writeU32 d
  | .Other _ v => v

/-- Decode one statistics sub-record from its `(kind, value)` pair. -/
def parse (kind : Nat) (payload : List Nat) :
    Except String Nl80211TransmitQueueStat :=
  if kind = 1 then (parse_u32 payload).map .BacklogBytes
  else if kind = 2 then (parse_u32 payload).map .BacklogPackets
  else if kind = 3 then (parse_u32 payload).map .Flows
  else if kind = 4 then (parse_u32 payload).map .Drops
  else if kind = 5 then (parse_u32 payload).map .EcnMarks
  else if kind = 6 then (parse_u32 payload).map .Overlimit
  else if kind = 7 then (parse_u32 payload).map .Overmemory
  else if kind = 8 then (parse_u32 payload).map .Collisions
  else if kind = 9 then (parse_u32 payload).map .TxBytes
  else if kind = 10 then (parse_u32 payload).map .TxPackets
  else if kind = 11 then (parse_u32 payload).map .MaxFlows
  else .ok (.Other kind payload)

/-- A statistics sub-record is well formed when counters fit in 32 bits
(the `u32` payload type) and the opaque escape carries an unrecognized
sub-kind that fits the 16-bit type field, with a value short enough for
the 16-bit length field. -/
def wellFormed : Nl80211TransmitQueueStat → Bool
  | .Other k v =>
    (decide (k = 0) || decide (12 ≤ k)) && decide (k < 65536)
      && decide (4 + v.length < 65536)
  | .BacklogBytes d | .BacklogPackets d | .Flows d | .Drops d | .EcnMarks d
  | .Overlimit d | .Overmemory d | .Collisions d | .TxBytes d | .TxPackets d
  | .MaxFlows d => decide (d < 4294967296)

theorem parse_escape {k : Nat} (h : k = 0 ∨ 12 ≤ k) (payload : List Nat) :
    parse k payload = .ok (.Other k payload) := by
  rcases h with rfl | h
  · rfl
  · obtain ⟨m, rfl⟩ : ∃ m, k = m + 12 := ⟨k - 12, by omega⟩
    rfl

theorem stat_parse_emit {s : Nl80211TransmitQueueStat} (h : s.wellFormed = true) :
    parse s.kind s.emit_value = .ok s := by
  cases s with
  | Other k v =>
    simp only [wellFormed, Bool.and_eq_true, Bool.or_eq_true,
      decide_eq_true_eq] at h
    simp only [kind, emit_value]
    exact parse_escape (by omega) v
  | _ =>
    simp only [wellFormed, decide_eq_true_eq] at h
    simp [parse, kind, emit_value, parse_u32_writeU32 h, Except.map]

theorem stat_emit_len (s : Nl80211TransmitQueueStat) :
    s.emit_value.length = s.value_len := by
  cases s <;> rfl

theorem stat_wf_bounds {s : Nl80211TransmitQueueStat} (h : s.wellFormed = true) :
    s.kind < 65536 ∧ 4 + s.emit_value.length < 65536 := by
  cases s with
  | Other k v =>
    simp only [wellFormed, Bool.and_eq_true, Bool.or_eq_true,
      decide_eq_true_eq] at h
    exact ⟨h.1.2, h.2⟩
  | _ => exact ⟨by simp [kind], by simp [emit_value, writeU32]⟩

end Nl80211TransmitQueueStat

/-! ### Attribute type constants (`src/attr.rs`)

Only the codes the codec dispatches on (or that the claims name) are
reproduced here; the source lists the full table. -/

@[simp] def NL80211_ATTR_WIPHY : Nat := 1
@[simp] def NL80211_ATTR_WIPHY_NAME : Nat := 2
@[simp] def NL80211_ATTR_IFINDEX : Nat := 3
@[simp] def NL80211_ATTR_IFNAME : Nat := 4
@[simp] def NL80211_ATTR_IFTYPE : Nat := 5
@[simp] def NL80211_ATTR_MAC : Nat := 6
@[simp] def NL80211_ATTR_WIPHY_FREQ : Nat := 38
@[simp] def NL80211_ATTR_WIPHY_CHANNEL_TYPE : Nat := 39
@[simp] def NL80211_ATTR_GENERATION : Nat := 46
@[simp] def NL80211_ATTR_SSID : Nat := 52
@[simp] def NL80211_ATTR_CIPHER_SUITES : Nat := 57
@[simp] def NL80211_ATTR_4ADDR : Nat := 83
@[simp] def NL80211_ATTR_WIPHY_TX_POWER_LEVEL : Nat := 98
@[simp] def NL80211_ATTR_WDEV : Nat := 153
@[simp] def NL80211_ATTR_CHANNEL_WIDTH : Nat := 159
@[simp] def NL80211_ATTR_CENTER_FREQ1 : Nat := 160
@[simp] def NL80211_ATTR_CENTER_FREQ2 : Nat := 161
@[simp] def NL80211_ATTR_TXQ_STATS : Nat := 265
@[simp] def NL80211_ATTR_WIPHY_FREQ_OFFSET : Nat := 290
@[simp] def NL80211_ATTR_MLO_LINKS : Nat := 312
@[simp] def NL80211_ATTR_MLO_LINK_ID : Nat := 313
@[simp] def ETH_ALEN : Nat := 6

/-! ### Per-link (MLO) composite (`src/attr.rs`) -/

/-- Sub-attributes of one MLO link record (`Nl80211MloLinkNla`). -/
inductive Nl80211MloLinkNla
  | Id (d : Nat)
  | Mac (m : List Nat)
  | Other (kind : Nat) (value : List Nat)
  deriving DecidableEq

namespace Nl80211MloLinkNla

/-- `Nla::value_len` for a link sub-attribute. -/
def value_len : Nl80211MloLinkNla → Nat
  | .Id _ => 1
  | .Mac _ => ETH_ALEN
  | .Other _ v => v.length

/-- `Nla::kind` for a link sub-attribute. -/
def kind : Nl80211MloLinkNla → Nat
  | .Id _ => NL80211_ATTR_MLO_LINK_ID
  | .Mac _ => NL80211_ATTR_MAC
  | .Other k _ => k

/-- `Nla::emit_value` for a link sub-attribute.  The source's `Other` arm
calls `attr.emit(buffer)`, which writes a complete framed record (header,
value, padding) rather than just the value bytes; the model returns the
byte sequence that call produces. -/
def emit_value : Nl80211MloLinkNla → List Nat
  | .Id d => [d]
  | .Mac m => m
  | .Other k v => emitNla k v

/-- `Nl80211MloLinkNla::parse` over a raw `(kind, value)` record. -/
def parse (kind : Nat) (payload : List Nat) : Except String Nl80211MloLinkNla :=
  if kind = NL80211_ATTR_MLO_LINK_ID then
    (parse_u8 payload).map .Id
  else if kind = NL80211_ATTR_MAC then
    if payload.length = ETH_ALEN then .ok (.Mac (payload.take ETH_ALEN))
    else .error "invalid length of NL80211_ATTR_MAC"
  else .ok (.Other kind payload)

end Nl80211MloLinkNla

/-- One link of a multi-link device (`Nl80211MloLink`); `derive Default`
gives identifier 0 and the all-zero address. -/
structure Nl80211MloLink where
  id : Nat
  mac : List Nat
  deriving DecidableEq

instance : Inhabited Nl80211MloLink :=
  ⟨{ id := 0, mac := List.replicate 6 0 }⟩

namespace Nl80211MloLink

/-- `From<&Nl80211MloLink> for Vec<Nl80211MloLinkNla>`. -/
def toNlas (link : Nl80211MloLink) : List Nl80211MloLinkNla :=
  [.Id link.id, .Mac link.mac]

/-- `Nla::kind`: the outer wire-type of a link record is its identifier
offset by one. -/
def kind (link : Nl80211MloLink) : Nat :=
  link.id + 1

/-- `Nla::value_len`: buffer length of the nested sub-attribute sequence. -/
def value_len (link : Nl80211MloLink) : Nat :=
  nlasBufferLen (link.toNlas.map Nl80211MloLinkNla.value_len)

/-- `Nla::emit_value`: the nested sub-attribute sequence, each sub-record
framed. -/
def emit_value (link : Nl80211MloLink) : List Nat :=
  emitNlaSeq (link.toNlas.map fun n => (n.kind, n.emit_value))

/-- The loop body of `Nl80211MloLink::parse`: fold the parsed sub-records
over the accumulating link value, updating the field a recognized
sub-record carries and discarding unrecognized ones. -/
def parseRecords : List (Nat × List Nat) → Nl80211MloLink →
    Except String Nl80211MloLink
  | [], acc => .ok acc
  | r :: rs, acc =>
    match Nl80211MloLinkNla.parse r.1 r.2 with
    | .ok (.Id d) => parseRecords rs { acc with id := d }
    | .ok (.Mac m) => parseRecords rs { acc with mac := m }
    | .ok (.Other _ _) => parseRecords rs acc
    | .error e => .error e

/-- `Nl80211MloLink::parse`: starts from the default value and folds the
nested TLV records; the outer `kind` of the record is available in the
buffer but never consulted. -/
def parse (kind : Nat) (payload : List Nat) : Except String Nl80211MloLink :=
  match splitNlas payload with
  | .ok records => parseRecords records default
  | .error e => .error e

end Nl80211MloLink

/-- Sequentially decode a list of raw records, stopping at the first
failure, as the source's `for nla in NlasIterator` loops do. -/
def parseAll {α : Type} (f : Nat → List Nat → Except String α) :
    List (Nat × List Nat) → Except String (List α)
  | [] => .ok []
  | r :: rs =>
    match f r.1 r.2 with
    | .ok a =>
      match parseAll f rs with
      | .ok as' => .ok (a :: as')
      | .error e => .error e
    | .error e => .error e

theorem parseAll_map_ok {α : Type} (f : Nat → List Nat → Except String α)
    (g : α → Nat × List Nat) (l : List α)
    (h : ∀ a ∈ l, f (g a).1 (g a).2 = .ok a) :
    parseAll f (l.map g) = .ok l := by
  induction l with
  | nil => rfl
  | cons a l ih =>
    rw [List.map_cons, parseAll, h a (by simp), ih (fun x hx => h x (by simp [hx]))]

/-! ### Top-level attribute codec (`src/attr.rs`, `enum Nl80211Attr`) -/

/-- The `Nl80211Attr` tagged union; strings are represented by their UTF-8
byte sequences, the 6-byte hardware address by its byte list. -/
inductive Nl80211Attr
  | WiPhy (d : Nat)
  | WiPhyName (s : List Nat)
  | IfIndex (d : Nat)
  | IfName (s : List Nat)
  | IfType (t : Nl80211InterfaceType)
  | Mac (m : List Nat)
  | Wdev (d : Nat)
  | Generation (d : Nat)
  | Use4Addr (b : Bool)
  | WiPhyFreq (d : Nat)
  | WiPhyFreqOffset (d : Nat)
  | WiPhyChannelType (t : Nl80211WiPhyChannelType)
  | ChannelWidth (t : Nl80211ChannelWidth)
  | CenterFreq1 (d : Nat)
  | CenterFreq2 (d : Nat)
  | WiPhyTxPowerLevel (d : Nat)
  | Ssid (s : List Nat)
  | TransmitQueueStats (nlas : List Nl80211TransmitQueueStat)
  | MloLinks (links : List Nl80211MloLink)
  | Other (kind : Nat) (value : List Nat)
  deriving DecidableEq

namespace Nl80211Attr

/-- `Nla::value_len for Nl80211Attr`. -/
def value_len : Nl80211Attr → Nat
  | .IfIndex _ | .WiPhy _ | .IfType _ | .Generation _ | .WiPhyFreq _
  | .WiPhyFreqOffset _ | .WiPhyChannelType _ | .CenterFreq1 _ | .CenterFreq2 _
  | .WiPhyTxPowerLevel _ | .ChannelWidth _ => 4
  | .Wdev _ => 8
  | .IfName s | .Ssid s | .WiPhyName s => s.length + 1
  | .Mac _ => ETH_ALEN
  | .Use4Addr _ => 1
  | .TransmitQueueStats nlas =>
    nlasBufferLen (nlas.map Nl80211TransmitQueueStat.value_len)
  | .MloLinks links => nlasBufferLen (links.map Nl80211MloLink.value_len)
  | .Other _ v => v.length

/-- `Nla::kind for Nl80211Attr`. -/
def kind : Nl80211Attr → Nat
  | .WiPhy _ => NL80211_ATTR_WIPHY
  | .WiPhyName _ => NL80211_ATTR_WIPHY_NAME
  | .IfIndex _ => NL80211_ATTR_IFINDEX
  | .IfName _ => NL80211_ATTR_IFNAME
  | .IfType _ => NL80211_ATTR_IFTYPE
  | .Mac _ => NL80211_ATTR_MAC
  | .Wdev _ => NL80211_ATTR_WDEV
  | .Generation _ => NL80211_ATTR_GENERATION
  | .Use4Addr _ => NL80211_ATTR_4ADDR
  | .WiPhyFreq _ => NL80211_ATTR_WIPHY_FREQ
  | .WiPhyFreqOffset _ => NL80211_ATTR_WIPHY_FREQ_OFFSET
  | .WiPhyChannelType _ => NL80211_ATTR_WIPHY_CHANNEL_TYPE
  | .ChannelWidth _ => NL80211_ATTR_CHANNEL_WIDTH
  | .CenterFreq1 _ => NL80211_ATTR_CENTER_FREQ1
  | .CenterFreq2 _ => NL80211_ATTR_CENTER_FREQ2
  | .WiPhyTxPowerLevel _ => NL80211_ATTR_WIPHY_TX_POWER_LEVEL
  | .Ssid _ => NL80211_ATTR_SSID
  | .TransmitQueueStats _ => NL80211_ATTR_TXQ_STATS
  | .MloLinks _ => NL80211_ATTR_MLO_LINKS
  | .Other k _ => k

/-- `Nla::emit_value for Nl80211Attr`: the bytes the routine writes into
the value region.  Strings gain their trailing terminator; nested
containers emit their elements as framed records.  The source's `Other`
arm calls `attr.emit(buffer)` — the full-record writer of the `Nla`
trait — instead of `attr.emit_value(buffer)`, so the model returns the
complete framed record (header, value, padding) that call produces. -/
def emit_value : Nl80211Attr → List Nat
  | .IfIndex d | .WiPhy d | .Generation d | .WiPhyFreq d | .WiPhyFreqOffset d
  | .CenterFreq1 d | .CenterFreq2 d | .WiPhyTxPowerLevel d => writeU32 d
  | .Wdev d => writeU64 d
  | .IfType t => writeU32 t.toU32
  | .Mac m => m
  | .IfName s | .Ssid s | .WiPhyName s => s ++ [0]
  | .Use4Addr b => [if b then 1 else 0]
  | .WiPhyChannelType t => writeU32 t.toU32
  | .ChannelWidth t => writeU32 t.toU32
  | .TransmitQueueStats nlas =>
    emitNlaSeq (nlas.map fun s => (s.kind, s.emit_value))
  | .MloLinks links => emitNlaSeq (links.map fun l => (l.kind, l.emit_value))
  | .Other k v => emitNla k v

/-- `Nl80211Attr::parse` over a raw `(kind, value)` record, dispatching on
the wire-type code exactly as the source's match does, with the opaque
fallback (`DefaultNla::parse`, which never fails) for every other code. -/
def parse (kind : Nat) (payload : List Nat) : Except String Nl80211Attr :=
  if kind = NL80211_ATTR_IFINDEX then (parse_u32 payload).map .IfIndex
  else if kind = NL80211_ATTR_WIPHY then (parse_u32 payload).map .WiPhy
  else if kind = NL80211_ATTR_WIPHY_NAME then
    (parse_string payload).map .WiPhyName
  else if kind = NL80211_ATTR_IFNAME then (parse_string payload).map .IfName
  else if kind = NL80211_ATTR_IFTYPE then
    (parse_u32 payload).map fun d => .IfType (Nl80211InterfaceType.fromU32 d)
  else if kind = NL80211_ATTR_WDEV then (parse_u64 payload).map .Wdev
  else if kind = NL80211_ATTR_MAC then
    if payload.length = ETH_ALEN then .ok (.Mac (payload.take ETH_ALEN))
    else .error "invalid length of NL80211_ATTR_MAC"
  else if kind = NL80211_ATTR_GENERATION then
    (parse_u32 payload).map .Generation
  else if kind = NL80211_ATTR_4ADDR then
    (parse_u8 payload).map fun d => .Use4Addr (decide (0 < d))
  else if kind = NL80211_ATTR_WIPHY_FREQ then
    (parse_u32 payload).map .WiPhyFreq
  else if kind = NL80211_ATTR_WIPHY_FREQ_OFFSET then
    (parse_u32 payload).map .WiPhyFreqOffset
  else if kind = NL80211_ATTR_WIPHY_CHANNEL_TYPE then
    (parse_u32 payload).map fun d =>
      .WiPhyChannelType (Nl80211WiPhyChannelType.fromU32 d)
  else if kind = NL80211_ATTR_CHANNEL_WIDTH then
    (parse_u32 payload).map fun d =>
      .ChannelWidth (Nl80211ChannelWidth.fromU32 d)
  else if kind = NL80211_ATTR_CENTER_FREQ1 then
    (parse_u32 payload).map .CenterFreq1
  else if kind = NL80211_ATTR_CENTER_FREQ2 then
    (parse_u32 payload).map .CenterFreq2
  else if kind = NL80211_ATTR_WIPHY_TX_POWER_LEVEL then
    (parse_u32 payload).map .WiPhyTxPowerLevel
  else if kind = NL80211_ATTR_SSID then (parse_string payload).map .Ssid
  else if kind = NL80211_ATTR_TXQ_STATS then
    match splitNlas payload with
    | .ok records =>
      (parseAll Nl80211TransmitQueueStat.parse records).map .TransmitQueueStats
    | .error e => .error e
  else if kind = NL80211_ATTR_MLO_LINKS then
    match splitNlas payload with
    | .ok records => (parseAll Nl80211MloLink.parse records).map .MloLinks
    | .error e => .error e
  else .ok (.Other kind payload)

end Nl80211Attr

namespace Nl80211MloLink

theorem emit_value_eq (l : Nl80211MloLink) :
    l.emit_value
      = emitNlaSeq [(NL80211_ATTR_MLO_LINK_ID, [l.id]),
          (NL80211_ATTR_MAC, l.mac)] :=
  rfl

theorem link_parse_emit (k : Nat) {l : Nl80211MloLink}
    (hmac : l.mac.length = 6) :
    parse k l.emit_value = .ok l := by
  obtain ⟨i, m⟩ := l
  replace hmac : m.length = 6 := hmac
  have hsplit : splitNlas (Nl80211MloLink.mk i m).emit_value
      = .ok [(NL80211_ATTR_MLO_LINK_ID, [i]), (NL80211_ATTR_MAC, m)] := by
    rw [emit_value_eq]
    refine splitNlas_emitNlaSeq _ ?_
    intro r hr
    rw [List.mem_cons, List.mem_singleton] at hr
    rcases hr with rfl | rfl
    · exact ⟨by norm_num [NL80211_ATTR_MLO_LINK_ID], by norm_num⟩
    · refine ⟨by norm_num [NL80211_ATTR_MAC], ?_⟩
      show 4 + m.length < 65536
      omega
  rw [parse, hsplit]
  have h1 : Nl80211MloLinkNla.parse NL80211_ATTR_MLO_LINK_ID [i]
      = .ok (.Id i) := by
    simp [Nl80211MloLinkNla.parse, parse_u8, Except.map]
  have h2 : Nl80211MloLinkNla.parse NL80211_ATTR_MAC m
      = .ok (.Mac m) := by
    rw [Nl80211MloLinkNla.parse,
      if_neg (by norm_num [NL80211_ATTR_MAC, NL80211_ATTR_MLO_LINK_ID]),
      if_pos rfl, if_pos (by rw [hmac]; rfl)]
    rw [show m.take ETH_ALEN = m.take m.length by rw [hmac]; rfl,
      List.take_length]
  simp only [parseRecords, h1, h2]

theorem link_emit_len {l : Nl80211MloLink} (hmac : l.mac.length = 6) :
    l.emit_value.length = l.value_len := by
  rw [emit_value_eq, emitNlaSeq_length]
  simp [value_len, toNlas, Nl80211MloLinkNla.value_len, nlasBufferLen,
    nlaBufferLen, hmac, ETH_ALEN]

theorem link_wf_bounds {l : Nl80211MloLink} (hid : l.id < 256)
    (hmac : l.mac.length = 6) :
    l.kind < 65536 ∧ 4 + l.emit_value.length < 65536 := by
  constructor
  · simp only [kind]
    omega
  · rw [emit_value_eq, emitNlaSeq_length]
    simp [nlasBufferLen, nlaBufferLen, nlaAlign, hmac]

end Nl80211MloLink

namespace Nl80211Attr

/-- Is this the opaque fallback variant? -/
def isOther : Nl80211Attr → Bool
  | .Other _ _ => true
  | _ => false

/-- Type-level invariants the Rust representation enforces: integer
payloads fit their machine width, the address is 6 bytes of byte values,
strings are valid UTF-8, enumerated payloads use their escape variant only
for unrecognized codes, nested containers hold well-formed elements, and
the opaque variant's kind and framed length fit the 16-bit wire fields. -/
def wellFormed : Nl80211Attr → Bool
  | .WiPhy d | .IfIndex d | .Generation d | .WiPhyFreq d | .WiPhyFreqOffset d
  | .CenterFreq1 d | .CenterFreq2 d | .WiPhyTxPowerLevel d =>
    decide (d < 4294967296)
  | .Wdev d => decide (d < 18446744073709551616)
  | .IfType t => t.canonical
  | .WiPhyChannelType t => t.canonical
  | .ChannelWidth t => t.canonical
  | .Mac m => decide (m.length = 6) && m.all fun b => decide (b < 256)
  | .Use4Addr _ => true
  | .WiPhyName s | .IfName s | .Ssid s => utf8Valid s
  | .TransmitQueueStats nlas => nlas.all Nl80211TransmitQueueStat.wellFormed
  | .MloLinks links =>
    links.all fun l => decide (l.id < 256) && decide (l.mac.length = 6)
      && l.mac.all fun b => decide (b < 256)
  | .Other k v => decide (k < 65536) && decide (4 + v.length < 65536)

end Nl80211Attr

theorem map_congr_mem {α β : Type} {f g : α → β} :
    ∀ {l : List α}, (∀ a ∈ l, f a = g a) → l.map f = l.map g
  | [], _ => rfl
  | a :: l, h => by
    rw [List.map_cons, List.map_cons, h a (by simp),
      map_congr_mem fun x hx => h x (by simp [hx])]

namespace Nl80211Attr

/-- Round trip of the top-level codec: emitting any well-formed named
variant's value and parsing it back under the variant's own wire-type code
recovers the variant, and the emitted byte count is the reported
`value_len`. -/
theorem attr_parse_emit {v : Nl80211Attr} (hwf : v.wellFormed = true)
    (ho : v.isOther = false) :
    parse v.kind v.emit_value = .ok v ∧ v.emit_value.length = v.value_len := by
  cases v with
  | WiPhy d =>
    simp only [wellFormed, decide_eq_true_eq] at hwf
    exact ⟨by simp [parse, kind, emit_value, parse_u32_writeU32 hwf, Except.map],
      by simp [emit_value, value_len, writeU32]⟩
  | IfIndex d =>
    simp only [wellFormed, decide_eq_true_eq] at hwf
    exact ⟨by simp [parse, kind, emit_value, parse_u32_writeU32 hwf, Except.map],
      by simp [emit_value, value_len, writeU32]⟩
  | Generation d =>
    simp only [wellFormed, decide_eq_true_eq] at hwf
    exact ⟨by simp [parse, kind, emit_value, parse_u32_writeU32 hwf, Except.map],
      by simp [emit_value, value_len, writeU32]⟩
  | WiPhyFreq d =>
    simp only [wellFormed, decide_eq_true_eq] at hwf
    exact ⟨by simp [parse, kind, emit_value, parse_u32_writeU32 hwf, Except.map],
      by simp [emit_value, value_len, writeU32]⟩
  | WiPhyFreqOffset d =>
    simp only [wellFormed, decide_eq_true_eq] at hwf
    exact ⟨by simp [parse, kind, emit_value, parse_u32_writeU32 hwf, Except.map],
      by simp [emit_value, value_len, writeU32]⟩
  | CenterFreq1 d =>
    simp only [wellFormed, decide_eq_true_eq] at hwf
    exact ⟨by simp [parse, kind, emit_value, parse_u32_writeU32 hwf, Except.map],
      by simp [emit_value, value_len, writeU32]⟩
  | CenterFreq2 d =>
    simp only [wellFormed, decide_eq_true_eq] at hwf
    exact ⟨by simp [parse, kind, emit_value, parse_u32_writeU32 hwf, Except.map],
      by simp [emit_value, value_len, writeU32]⟩
  | WiPhyTxPowerLevel d =>
    simp only [wellFormed, decide_eq_true_eq] at hwf
    exact ⟨by simp [parse, kind, emit_value, parse_u32_writeU32 hwf, Except.map],
      by simp [emit_value, value_len, writeU32]⟩
  | Wdev d =>
    simp only [wellFormed, decide_eq_true_eq] at hwf
    exact ⟨by simp [parse, kind, emit_value, parse_u64_writeU64 hwf, Except.map],
      by simp [emit_value, value_len, writeU64]⟩
  | WiPhyName s =>
    simp only [wellFormed] at hwf
    exact ⟨by simp [parse, kind, emit_value, parse_string_append hwf, Except.map],
      by simp [emit_value, value_len]⟩
  | IfName s =>
    simp only [wellFormed] at hwf
    exact ⟨by simp [parse, kind, emit_value, parse_string_append hwf, Except.map],
      by simp [emit_value, value_len]⟩
  | Ssid s =>
    simp only [wellFormed] at hwf
    exact ⟨by simp [parse, kind, emit_value, parse_string_append hwf, Except.map],
      by simp [emit_value, value_len]⟩
  | IfType t =>
    simp only [wellFormed] at hwf
    exact ⟨by simp [parse, kind, emit_value,
        parse_u32_writeU32 (Nl80211InterfaceType.iface_toU32_lt hwf), Except.map,
        Nl80211InterfaceType.iface_from_to hwf],
      by simp [emit_value, value_len, writeU32]⟩
  | WiPhyChannelType t =>
    simp only [wellFormed] at hwf
    exact ⟨by simp [parse, kind, emit_value,
        parse_u32_writeU32 (Nl80211WiPhyChannelType.chtype_toU32_lt hwf), Except.map,
        Nl80211WiPhyChannelType.chtype_from_to hwf],
      by simp [emit_value, value_len, writeU32]⟩
  | ChannelWidth t =>
    simp only [wellFormed] at hwf
    exact ⟨by simp [parse, kind, emit_value,
        parse_u32_writeU32 (Nl80211ChannelWidth.chwidth_toU32_lt hwf), Except.map,
        Nl80211ChannelWidth.chwidth_from_to hwf],
      by simp [emit_value, value_len, writeU32]⟩
  | Mac m =>
    simp only [wellFormed, Bool.and_eq_true, decide_eq_true_eq] at hwf
    have htake : m.take 6 = m := by
      rw [← hwf.1, List.take_length]
    exact ⟨by simp [parse, kind, emit_value, hwf.1, htake],
      by simp [emit_value, value_len, hwf.1]⟩
  | Use4Addr b =>
    cases b <;> exact ⟨by decide, by decide⟩
  | TransmitQueueStats nlas =>
    simp only [wellFormed, List.all_eq_true] at hwf
    constructor
    · have hsplit : splitNlas (emitNlaSeq
          (nlas.map fun s => (s.kind, s.emit_value)))
          = .ok (nlas.map fun s => (s.kind, s.emit_value)) := by
        refine splitNlas_emitNlaSeq _ ?_
        intro r hr
        obtain ⟨s, hs, rfl⟩ := List.mem_map.mp hr
        exact Nl80211TransmitQueueStat.stat_wf_bounds (hwf s hs)
      have hparse : parseAll Nl80211TransmitQueueStat.parse
          (nlas.map fun s => (s.kind, s.emit_value)) = .ok nlas :=
        parseAll_map_ok _ _ _
          (fun s hs => Nl80211TransmitQueueStat.stat_parse_emit (hwf s hs))
      simp [parse, kind, emit_value, hsplit, hparse, Except.map]
    · simp only [emit_value, value_len, emitNlaSeq_length, List.map_map]
      congr 1
      exact map_congr_mem fun s _ => Nl80211TransmitQueueStat.stat_emit_len s
  | MloLinks links =>
    simp only [wellFormed, List.all_eq_true, Bool.and_eq_true,
      decide_eq_true_eq] at hwf
    constructor
    · have hsplit : splitNlas (emitNlaSeq
          (links.map fun l => (l.kind, l.emit_value)))
          = .ok (links.map fun l => (l.kind, l.emit_value)) := by
        refine splitNlas_emitNlaSeq _ ?_
        intro r hr
        obtain ⟨l, hl, rfl⟩ := List.mem_map.mp hr
        exact Nl80211MloLink.link_wf_bounds (hwf l hl).1.1 (hwf l hl).1.2
      have hparse : parseAll Nl80211MloLink.parse
          (links.map fun l => (l.kind, l.emit_value)) = .ok links :=
        parseAll_map_ok _ _ _
          (fun l hl => Nl80211MloLink.link_parse_emit l.kind (hwf l hl).1.2)
      simp [parse, kind, emit_value, hsplit, hparse, Except.map]
    · simp only [emit_value, value_len, emitNlaSeq_length, List.map_map]
      congr 1
      exact map_congr_mem fun l hl => Nl80211MloLink.link_emit_len (hwf l hl).1.2
  | Other k val =>
    simp [isOther] at ho

end Nl80211Attr

theorem readU32_take (B : List Nat) : readU32 (B.take 4) = readU32 B := by
  match B with
  | [] => rfl
  | [_] => rfl
  | [_, _] => rfl
  | [_, _, _] => rfl
  | _ :: _ :: _ :: _ :: _ => rfl

theorem splitNlas_single (k : Nat) (v : List Nat)
    (hk : k < 65536) (hv : 4 + v.length < 65536) :
    splitNlas (emitNla k v) = .ok [(k, v)] := by
  have h := splitNlas_cons k v [] hk hv
  rw [List.append_nil] at h
  rw [h]
  rfl

theorem exceptOk_map {α β : Type} (f : α → β) (e : Except String α) :
    exceptOk (e.map f) = exceptOk e := by
  cases e <;> rfl

theorem parse_string_spec (B : List Nat) :
    (exceptOk (parse_string B) = false
      ↔ B = [] ∨ utf8Valid B.dropLast = false)
    ∧ (B ≠ [] → utf8Valid B.dropLast = true →
        parse_string B = .ok B.dropLast) := by
  by_cases hB : B = []
  · subst hB
    exact ⟨by simp [parse_string, exceptOk], by simp⟩
  · have hne : B.isEmpty = false := by
      simp [List.isEmpty_iff, hB]
    by_cases hu : utf8Valid B.dropLast = true
    · refine ⟨?_, fun _ _ => by simp [parse_string, hne, hu]⟩
      simp [parse_string, hne, hu, exceptOk, hB]
    · refine ⟨?_, fun _ h => absurd h hu⟩
      simp only [Bool.not_eq_true] at hu
      simp [parse_string, hne, hu, exceptOk, hB]

namespace Nl80211MloLink

theorem parseRecords_ok (rs : List (Nat × List Nat)) :
    ∀ acc : Nl80211MloLink,
      (∀ r ∈ rs, (r.1 = NL80211_ATTR_MLO_LINK_ID → 1 ≤ r.2.length)
        ∧ (r.1 = NL80211_ATTR_MAC → r.2.length = 6)) →
      ∃ l, parseRecords rs acc = .ok l := by
  induction rs with
  | nil => exact fun acc _ => ⟨acc, rfl⟩
  | cons r rs ih =>
    intro acc h
    have hr := h r (by simp)
    have hrest : ∀ x ∈ rs, (x.1 = NL80211_ATTR_MLO_LINK_ID → 1 ≤ x.2.length)
        ∧ (x.1 = NL80211_ATTR_MAC → x.2.length = 6) :=
      fun x hx => h x (List.mem_cons_of_mem _ hx)
    by_cases h1 : r.1 = NL80211_ATTR_MLO_LINK_ID
    · have hlen : ¬ r.2.length < 1 := by
        have := hr.1 h1
        omega
      rw [parseRecords, Nl80211MloLinkNla.parse, if_pos h1, parse_u8,
        if_neg hlen]
      exact ih _ hrest
    · by_cases h2 : r.1 = NL80211_ATTR_MAC
      · rw [parseRecords, Nl80211MloLinkNla.parse, if_neg h1, if_pos h2,
          if_pos (by simpa using hr.2 h2)]
        exact ih _ hrest
      · rw [parseRecords, Nl80211MloLinkNla.parse, if_neg h1, if_neg h2]
        exact ih _ hrest

theorem parseRecords_filter (rs : List (Nat × List Nat)) :
    ∀ acc : Nl80211MloLink,
      parseRecords rs acc
        = parseRecords (rs.filter fun r =>
            (r.1 == NL80211_ATTR_MLO_LINK_ID) || (r.1 == NL80211_ATTR_MAC))
          acc := by
  induction rs with
  | nil => exact fun _ => rfl
  | cons r rs ih =>
    intro acc
    by_cases h1 : r.1 = NL80211_ATTR_MLO_LINK_ID
    · rw [parseRecords, List.filter_cons_of_pos (by simp [h1]), parseRecords]
      rw [Nl80211MloLinkNla.parse, if_pos h1]
      cases hp : parse_u8 r.2 with
      | ok d => simp only [Except.map, ih]
      | error e => simp only [Except.map]
    · by_cases h2 : r.1 = NL80211_ATTR_MAC
      · rw [parseRecords, List.filter_cons_of_pos (by simp [h2]), parseRecords]
        rw [Nl80211MloLinkNla.parse, if_neg h1, if_pos h2]
        by_cases hlen : r.2.length = ETH_ALEN
        · simp only [if_pos hlen, ih]
        · simp only [if_neg hlen]
      · rw [parseRecords, List.filter_cons_of_neg
          (by simp only [NL80211_ATTR_MLO_LINK_ID, NL80211_ATTR_MAC] at h1 h2
              simp [h1, h2])]
        rw [Nl80211MloLinkNla.parse, if_neg h1, if_neg h2]
        exact ih acc

end Nl80211MloLink

/-! ## Claim theorems -/

/-- C1 (counterexample): the claim as stated fails on the code at concrete
inputs.  An interface-type payload using the enum's unrecognized-value
escape with a recognized code (`Other 2`) does not round-trip by name — it
parses back as the named variant `Station` — and for the opaque `Other`
variant the bytes `emit_value` writes are a complete framed record, not
`value_len()` bytes. -/
theorem claim_C1_counterexample :
    Nl80211Attr.parse (Nl80211Attr.kind (.IfType (.Other 2)))
        (Nl80211Attr.emit_value (.IfType (.Other 2)))
      ≠ .ok (.IfType (.Other 2))
    ∧ (Nl80211Attr.emit_value (.Other 4242 [171])).length
      ≠ Nl80211Attr.value_len (.Other 4242 [171]) := by
  decide

/-- C1 (amended): for every well-formed named `Nl80211Attr` variant (enum
payloads canonical, strings valid UTF-8, addresses 6 bytes, nested elements
well formed), emitting the value and parsing a record with the variant's
kind and that value yields the variant back, and `emit_value` writes
exactly `value_len()` bytes; the `Other` variant instead emits the complete
framed record `emitNla kind value` (header, value, padding), because the
source calls `attr.emit` rather than `attr.emit_value` in that arm. -/
theorem claim_C1 (v : Nl80211Attr) (hwf : v.wellFormed = true)
    (ho : v.isOther = false) :
    Nl80211Attr.parse v.kind v.emit_value = .ok v
    ∧ v.emit_value.length = v.value_len
    ∧ ∀ (k : Nat) (val : List Nat),
        Nl80211Attr.emit_value (.Other k val) = emitNla k val :=
  ⟨(Nl80211Attr.attr_parse_emit hwf ho).1, (Nl80211Attr.attr_parse_emit hwf ho).2,
    fun _ _ => rfl⟩

/-- C1 (witness): the amended round trip at a concrete multi-link
attribute. -/
theorem claim_C1_witness :
    Nl80211Attr.parse
        (Nl80211Attr.kind (.MloLinks [⟨5, [1, 2, 3, 4, 5, 6]⟩]))
        (Nl80211Attr.emit_value (.MloLinks [⟨5, [1, 2, 3, 4, 5, 6]⟩]))
      = .ok (.MloLinks [⟨5, [1, 2, 3, 4, 5, 6]⟩])
    ∧ (Nl80211Attr.emit_value (.MloLinks [⟨5, [1, 2, 3, 4, 5, 6]⟩])).length
      = Nl80211Attr.value_len (.MloLinks [⟨5, [1, 2, 3, 4, 5, 6]⟩])
    ∧ ∀ (k : Nat) (val : List Nat),
        Nl80211Attr.emit_value (.Other k val) = emitNla k val :=
  claim_C1 (.MloLinks [⟨5, [1, 2, 3, 4, 5, 6]⟩]) (by decide) (by decide)

/-- C2: decoding a record with an unhandled wire-type code succeeds and
captures kind and value verbatim in the `Other` variant — but re-encoding
does not reproduce the record: the source's `Other` arm of `emit_value`
calls `attr.emit(buffer)`, the full-record writer, so the bytes written
into the value region are a doubly framed record of 8 bytes (4-byte header,
2 value bytes, 2 padding bytes) instead of the 2 captured value bytes, and
disagree with `value_len()` (in Rust this write overruns the value-region
slice and panics). -/
theorem claim_C2 :
    Nl80211Attr.parse 9999 [171, 205] = .ok (.Other 9999 [171, 205])
    ∧ Nl80211Attr.emit_value (.Other 9999 [171, 205])
      = emitNla 9999 [171, 205]
    ∧ Nl80211Attr.emit_value (.Other 9999 [171, 205]) ≠ [171, 205]
    ∧ (Nl80211Attr.emit_value (.Other 9999 [171, 205])).length ≠
        Nl80211Attr.value_len (.Other 9999 [171, 205]) := by
  decide

/-- C3: a fixed-width integer attribute (IFINDEX, width 4) fails to decode
when the value is shorter than 4 bytes and decodes successfully from the
4 leading bytes when the value is 4 bytes or longer, ignoring any excess. -/
theorem claim_C3 (B : List Nat) :
    (B.length < 4 →
      exceptOk (Nl80211Attr.parse NL80211_ATTR_IFINDEX B) = false)
    ∧ (4 ≤ B.length →
      Nl80211Attr.parse NL80211_ATTR_IFINDEX B
        = .ok (.IfIndex (readU32 (B.take 4)))) := by
  constructor
  · intro h
    simp [Nl80211Attr.parse, parse_u32, h, Except.map, exceptOk]
  · intro h
    have hn : ¬ B.length < 4 := by omega
    rw [readU32_take]
    simp [Nl80211Attr.parse, parse_u32, hn, Except.map]

/-- C3 (witness): a 2-byte IFINDEX value fails, a 5-byte one decodes from
its leading 4 bytes. -/
theorem claim_C3_witness :
    exceptOk (Nl80211Attr.parse NL80211_ATTR_IFINDEX [7, 0]) = false
    ∧ Nl80211Attr.parse NL80211_ATTR_IFINDEX [7, 0, 0, 0, 9]
      = .ok (.IfIndex (readU32 ([7, 0, 0, 0, 9].take 4))) :=
  ⟨(claim_C3 [7, 0]).1 (by decide), (claim_C3 [7, 0, 0, 0, 9]).2 (by decide)⟩

/-- C4: decoding a MAC attribute fails exactly when the value is not 6
bytes long; with exactly 6 bytes it yields the `Mac` variant carrying those
bytes. -/
theorem claim_C4 (B : List Nat) :
    (exceptOk (Nl80211Attr.parse NL80211_ATTR_MAC B) = false ↔ B.length ≠ 6)
    ∧ (B.length = 6 →
      Nl80211Attr.parse NL80211_ATTR_MAC B = .ok (.Mac B)) := by
  constructor
  · by_cases hB : B.length = 6
    · have htake : B.take 6 = B := by
        rw [← hB, List.take_length]
      simp [Nl80211Attr.parse, hB, htake, exceptOk]
    · simp [Nl80211Attr.parse, hB, exceptOk]
  · intro hB
    have htake : B.take 6 = B := by
      rw [← hB, List.take_length]
    simp [Nl80211Attr.parse, hB, htake]

/-- C4 (witness): 6 bytes decode, 5 bytes fail. -/
theorem claim_C4_witness :
    Nl80211Attr.parse NL80211_ATTR_MAC [1, 2, 3, 4, 5, 6]
      = .ok (.Mac [1, 2, 3, 4, 5, 6])
    ∧ exceptOk (Nl80211Attr.parse NL80211_ATTR_MAC [1, 2, 3, 4, 5]) = false :=
  ⟨(claim_C4 [1, 2, 3, 4, 5, 6]).2 (by decide),
    (claim_C4 [1, 2, 3, 4, 5]).1.mpr (by decide)⟩

/-- C5: an MLO link record is framed with outer wire-type `id + 1` (so link
identifier 5 emits with outer type 6), and decoding a record framed with
outer type 6 whose nested sequence holds a link-id sub-record with value 5
and a 6-byte address sub-record yields the per-link value with id 5 and
that address. -/
theorem claim_C5 (link : Nl80211MloLink) (hid : link.id < 256)
    (mac : List Nat) (hmac : mac.length = 6) :
    Nl80211MloLink.kind link = link.id + 1
    ∧ Nl80211MloLink.kind ⟨5, mac⟩ = 6
    ∧ Nl80211Attr.emit_value (.MloLinks [link])
      = emitNla (link.id + 1) link.emit_value
    ∧ Nl80211MloLink.parse 6
        (emitNla NL80211_ATTR_MLO_LINK_ID [5] ++ emitNla NL80211_ATTR_MAC mac)
      = .ok ⟨5, mac⟩ := by
  refine ⟨rfl, rfl, ?_, ?_⟩
  · show emitNla (Nl80211MloLink.kind link) link.emit_value ++ [] = _
    rw [List.append_nil]
    rfl
  · have hbridge : emitNla NL80211_ATTR_MLO_LINK_ID [5]
        ++ emitNla NL80211_ATTR_MAC mac
        = Nl80211MloLink.emit_value ⟨5, mac⟩ := by
      rw [Nl80211MloLink.emit_value_eq]
      show _ = emitNla NL80211_ATTR_MLO_LINK_ID [5]
        ++ (emitNla NL80211_ATTR_MAC mac ++ [])
      rw [List.append_nil]
    rw [hbridge]
    exact Nl80211MloLink.link_parse_emit 6
      (show (Nl80211MloLink.mk 5 mac).mac.length = 6 from hmac)

/-- C5 (witness): the discriminant and decode at a concrete link and
address. -/
theorem claim_C5_witness :
    Nl80211MloLink.kind ⟨5, [1, 2, 3, 4, 5, 6]⟩ = 5 + 1
    ∧ Nl80211MloLink.kind ⟨5, [1, 2, 3, 4, 5, 6]⟩ = 6
    ∧ Nl80211Attr.emit_value (.MloLinks [⟨5, [1, 2, 3, 4, 5, 6]⟩])
      = emitNla (5 + 1) (Nl80211MloLink.emit_value ⟨5, [1, 2, 3, 4, 5, 6]⟩)
    ∧ Nl80211MloLink.parse 6
        (emitNla NL80211_ATTR_MLO_LINK_ID [5]
          ++ emitNla NL80211_ATTR_MAC [1, 2, 3, 4, 5, 6])
      = .ok ⟨5, [1, 2, 3, 4, 5, 6]⟩ :=
  claim_C5 ⟨5, [1, 2, 3, 4, 5, 6]⟩ (by decide) [1, 2, 3, 4, 5, 6] (by decide)

/-- C6 (counterexample): the claim as stated fails on the code — a
cipher-suites attribute whose value length is 1 (not a multiple of 4)
decodes successfully, and an 8-byte value yields the opaque `Other`
variant, not a sequence of cipher-suite elements. -/
theorem claim_C6_counterexample :
    exceptOk (Nl80211Attr.parse NL80211_ATTR_CIPHER_SUITES [171]) = true
    ∧ Nl80211Attr.parse NL80211_ATTR_CIPHER_SUITES [1, 0, 0, 0, 2, 0, 0, 0]
      = .ok (.Other NL80211_ATTR_CIPHER_SUITES [1, 0, 0, 0, 2, 0, 0, 0]) := by
  decide

/-- C6 (amended): kind 57 (`NL80211_ATTR_CIPHER_SUITES`) has no arm in the
dispatch table, so a cipher-suite attribute of any value length — multiple
of 4 or not — decodes successfully to the opaque fallback carrying kind 57
and the value bytes verbatim; no 4-byte chunking takes place. -/
theorem claim_C6 (B : List Nat) :
    Nl80211Attr.parse NL80211_ATTR_CIPHER_SUITES B
      = .ok (.Other NL80211_ATTR_CIPHER_SUITES B) := by
  simp [Nl80211Attr.parse]

/-- C7 (counterexample): the claim as stated fails on the code — a nested
sequence consisting of one framing-well-formed TLV record with the
(recognized) link-id kind and an empty value makes the per-link decode
fail, although every record in the sequence is well formed. -/
theorem claim_C7_counterexample :
    exceptOk (Nl80211MloLink.parse 0 (emitNla NL80211_ATTR_MLO_LINK_ID []))
      = false := by
  decide

/-- C7 (amended): sub-records with unrecognized kinds never cause the
per-link decode to fail and are discarded: on any well-formed nested
sequence in which every link-id record has a nonempty value and every
address record a 6-byte value, decode succeeds, and its result equals the
decode of the sequence with all unrecognized-kind records removed. -/
theorem claim_C7 (k : Nat) (rs : List (Nat × List Nat))
    (hframe : ∀ r ∈ rs, r.1 < 65536 ∧ 4 + r.2.length < 65536)
    (hknown : ∀ r ∈ rs, (r.1 = NL80211_ATTR_MLO_LINK_ID → 1 ≤ r.2.length)
      ∧ (r.1 = NL80211_ATTR_MAC → r.2.length = 6)) :
    (∃ l, Nl80211MloLink.parse k (emitNlaSeq rs) = .ok l)
    ∧ Nl80211MloLink.parse k (emitNlaSeq rs)
      = Nl80211MloLink.parseRecords
          (rs.filter fun r =>
            (r.1 == NL80211_ATTR_MLO_LINK_ID) || (r.1 == NL80211_ATTR_MAC))
          default := by
  have hsplit := splitNlas_emitNlaSeq rs hframe
  constructor
  · rw [Nl80211MloLink.parse, hsplit]
    exact Nl80211MloLink.parseRecords_ok rs default hknown
  · rw [Nl80211MloLink.parse, hsplit]
    exact Nl80211MloLink.parseRecords_filter rs default

/-- C7 (witness): a sequence holding an unknown sub-kind (9999) between
recognized records decodes successfully and equals the decode with the
unknown record dropped. -/
theorem claim_C7_witness :
    (∃ l, Nl80211MloLink.parse 3
        (emitNlaSeq [(9999, [1, 2]), (NL80211_ATTR_MLO_LINK_ID, [7]),
          (NL80211_ATTR_MAC, [1, 2, 3, 4, 5, 6])]) = .ok l)
    ∧ Nl80211MloLink.parse 3
        (emitNlaSeq [(9999, [1, 2]), (NL80211_ATTR_MLO_LINK_ID, [7]),
          (NL80211_ATTR_MAC, [1, 2, 3, 4, 5, 6])])
      = Nl80211MloLink.parseRecords
          ([(9999, [1, 2]), (NL80211_ATTR_MLO_LINK_ID, [7]),
            (NL80211_ATTR_MAC, [1, 2, 3, 4, 5, 6])].filter fun r =>
            (r.1 == NL80211_ATTR_MLO_LINK_ID) || (r.1 == NL80211_ATTR_MAC))
          default :=
  claim_C7 3 [(9999, [1, 2]), (NL80211_ATTR_MLO_LINK_ID, [7]),
    (NL80211_ATTR_MAC, [1, 2, 3, 4, 5, 6])]
    (by decide) (by decide)

/-- C8: each string attribute (wiphy name, interface name, SSID) fails to
decode exactly when the value is empty or the bytes before the trailing
terminator are not valid text, and otherwise yields the text with the
trailing byte removed. -/
theorem claim_C8 (B : List Nat) :
    ((exceptOk (Nl80211Attr.parse NL80211_ATTR_WIPHY_NAME B) = false
        ↔ B = [] ∨ utf8Valid B.dropLast = false)
      ∧ (B ≠ [] → utf8Valid B.dropLast = true →
        Nl80211Attr.parse NL80211_ATTR_WIPHY_NAME B
          = .ok (.WiPhyName B.dropLast)))
    ∧ ((exceptOk (Nl80211Attr.parse NL80211_ATTR_IFNAME B) = false
        ↔ B = [] ∨ utf8Valid B.dropLast = false)
      ∧ (B ≠ [] → utf8Valid B.dropLast = true →
        Nl80211Attr.parse NL80211_ATTR_IFNAME B = .ok (.IfName B.dropLast)))
    ∧ ((exceptOk (Nl80211Attr.parse NL80211_ATTR_SSID B) = false
        ↔ B = [] ∨ utf8Valid B.dropLast = false)
      ∧ (B ≠ [] → utf8Valid B.dropLast = true →
        Nl80211Attr.parse NL80211_ATTR_SSID B = .ok (.Ssid B.dropLast))) := by
  have hspec := parse_string_spec B
  refine ⟨⟨?_, ?_⟩, ⟨?_, ?_⟩, ⟨?_, ?_⟩⟩
  · rw [show Nl80211Attr.parse NL80211_ATTR_WIPHY_NAME B
        = (parse_string B).map .WiPhyName by simp [Nl80211Attr.parse],
      exceptOk_map]
    exact hspec.1
  · intro h1 h2
    rw [show Nl80211Attr.parse NL80211_ATTR_WIPHY_NAME B
        = (parse_string B).map .WiPhyName by simp [Nl80211Attr.parse],
      hspec.2 h1 h2]
    rfl
  · rw [show Nl80211Attr.parse NL80211_ATTR_IFNAME B
        = (parse_string B).map .IfName by simp [Nl80211Attr.parse],
      exceptOk_map]
    exact hspec.1
  · intro h1 h2
    rw [show Nl80211Attr.parse NL80211_ATTR_IFNAME B
        = (parse_string B).map .IfName by simp [Nl80211Attr.parse],
      hspec.2 h1 h2]
    rfl
  · rw [show Nl80211Attr.parse NL80211_ATTR_SSID B
        = (parse_string B).map .Ssid by simp [Nl80211Attr.parse],
      exceptOk_map]
    exact hspec.1
  · intro h1 h2
    rw [show Nl80211Attr.parse NL80211_ATTR_SSID B
        = (parse_string B).map .Ssid by simp [Nl80211Attr.parse],
      hspec.2 h1 h2]
    rfl

/-- C8 (witness): the empty value fails; the bytes of "hi" with the
terminator decode to the text for all three string attributes. -/
theorem claim_C8_witness :
    (exceptOk (Nl80211Attr.parse NL80211_ATTR_WIPHY_NAME []) = false)
    ∧ Nl80211Attr.parse NL80211_ATTR_WIPHY_NAME [104, 105, 0]
      = .ok (.WiPhyName [104, 105])
    ∧ Nl80211Attr.parse NL80211_ATTR_IFNAME [104, 105, 0]
      = .ok (.IfName [104, 105])
    ∧ Nl80211Attr.parse NL80211_ATTR_SSID [104, 105, 0]
      = .ok (.Ssid [104, 105]) :=
  ⟨(claim_C8 []).1.1.mpr (Or.inl rfl),
    (claim_C8 [104, 105, 0]).1.2 (by decide) (by decide),
    (claim_C8 [104, 105, 0]).2.1.2 (by decide) (by decide),
    (claim_C8 [104, 105, 0]).2.2.2 (by decide) (by decide)⟩

/-- C9: a one-byte 4ADDR payload decodes to `Use4Addr true` exactly when it
is nonzero, while encoding writes one byte that is 0 or 1; hence any
one-byte payload other than 0 or 1 decodes successfully but does not
re-encode to its original byte. -/
theorem claim_C9 (b : Nat) (hb : b < 256) :
    Nl80211Attr.parse NL80211_ATTR_4ADDR [b]
      = .ok (.Use4Addr (decide (0 < b)))
    ∧ Nl80211Attr.emit_value (.Use4Addr true) = [1]
    ∧ Nl80211Attr.emit_value (.Use4Addr false) = [0]
    ∧ (2 ≤ b → ∀ v : Nl80211Attr,
        Nl80211Attr.parse NL80211_ATTR_4ADDR [b] = .ok v →
        Nl80211Attr.emit_value v ≠ [b]) := by
  have hparse : Nl80211Attr.parse NL80211_ATTR_4ADDR [b]
      = .ok (.Use4Addr (decide (0 < b))) := by
    simp [Nl80211Attr.parse, parse_u8, Except.map]
  refine ⟨hparse, rfl, rfl, ?_⟩
  intro h2 v hv
  rw [hparse] at hv
  have hd : decide (0 < b) = true := decide_eq_true (by omega)
  rw [hd] at hv
  cases hv
  simp only [Nl80211Attr.emit_value, if_pos rfl]
  intro hcontra
  have : (1 : Nat) = b := by
    have := List.cons.injEq 1 ([] : List Nat) b [] ▸ hcontra
    exact (List.cons.inj hcontra).1
  omega

/-- C9 (witness): payload byte 7 decodes to `Use4Addr true` and re-encodes
to 1, not 7. -/
theorem claim_C9_witness :
    Nl80211Attr.parse NL80211_ATTR_4ADDR [7]
      = .ok (.Use4Addr (decide (0 < 7)))
    ∧ Nl80211Attr.emit_value (.Use4Addr true) = [1]
    ∧ Nl80211Attr.emit_value (.Use4Addr false) = [0]
    ∧ (2 ≤ 7 → ∀ v : Nl80211Attr,
        Nl80211Attr.parse NL80211_ATTR_4ADDR [7] = .ok v →
        Nl80211Attr.emit_value v ≠ [7]) :=
  claim_C9 7 (by decide)

/-- C10: the per-link decode never consults the record's outer wire-type
code — parses of equal value bytes under different outer kinds are equal —
and a record whose nested sequence is empty, or lacks a link-id or an
address sub-record, decodes successfully with the missing fields at their
defaults (id 0, all-zero 6-byte address). -/
theorem claim_C10 (k1 k2 : Nat) (v : List Nat) (mac : List Nat)
    (hmac : mac.length = 6) (n : Nat) (hn : n < 256) :
    Nl80211MloLink.parse k1 v = Nl80211MloLink.parse k2 v
    ∧ Nl80211MloLink.parse k1 [] = .ok ⟨0, List.replicate 6 0⟩
    ∧ Nl80211MloLink.parse k1 (emitNla NL80211_ATTR_MAC mac) = .ok ⟨0, mac⟩
    ∧ Nl80211MloLink.parse k1 (emitNla NL80211_ATTR_MLO_LINK_ID [n])
      = .ok ⟨n, List.replicate 6 0⟩ := by
  refine ⟨rfl, rfl, ?_, ?_⟩
  · rw [Nl80211MloLink.parse,
      splitNlas_single NL80211_ATTR_MAC mac (by norm_num)
        (by rw [hmac]; norm_num)]
    have h2 : Nl80211MloLinkNla.parse NL80211_ATTR_MAC mac
        = .ok (.Mac mac) := by
      rw [Nl80211MloLinkNla.parse,
        if_neg (by norm_num [NL80211_ATTR_MAC, NL80211_ATTR_MLO_LINK_ID]),
        if_pos rfl, if_pos (by rw [hmac]; rfl)]
      rw [show mac.take ETH_ALEN = mac.take mac.length by rw [hmac]; rfl,
        List.take_length]
    simp only [Nl80211MloLink.parseRecords, h2]
    rfl
  · rw [Nl80211MloLink.parse,
      splitNlas_single NL80211_ATTR_MLO_LINK_ID [n] (by norm_num)
        (by norm_num)]
    have h1 : Nl80211MloLinkNla.parse NL80211_ATTR_MLO_LINK_ID [n]
        = .ok (.Id n) := by
      simp [Nl80211MloLinkNla.parse, parse_u8, Except.map]
    simp only [Nl80211MloLink.parseRecords, h1]
    rfl

/-- C10 (witness): the kind-independence and the default cases at concrete
inputs. -/
theorem claim_C10_witness :
    Nl80211MloLink.parse 1 [9, 9, 9] = Nl80211MloLink.parse 7777 [9, 9, 9]
    ∧ Nl80211MloLink.parse 1 [] = .ok ⟨0, List.replicate 6 0⟩
    ∧ Nl80211MloLink.parse 1 (emitNla NL80211_ATTR_MAC [1, 2, 3, 4, 5, 6])
      = .ok ⟨0, [1, 2, 3, 4, 5, 6]⟩
    ∧ Nl80211MloLink.parse 1 (emitNla NL80211_ATTR_MLO_LINK_ID [5])
      = .ok ⟨5, List.replicate 6 0⟩ :=
  claim_C10 1 7777 [9, 9, 9] [1, 2, 3, 4, 5, 6] (by decide) 5 (by decide)

end WlNl80211
